import Mathlib

/-!
# Verification of the thinc sequence-combinator core

Shallow embedding of `src/thinc/layers/foreach.py` (the `ForEach`
combinator) and of the Sequence Codec / recurrent-layer interfaces that
the repository's tests exercise.  Sequences are Lean lists; the opaque
numeric rows handled by the backend are a type parameter.
-/

set_option maxHeartbeats 1000000

namespace Thinc

/-- Modelled from the spec: `Ops.flatten` (numeric backend, not under
`src/`) — "generic flatten … over arbitrary batch sizes": concatenates a
list of lists into one flat list. -/
def opsFlatten {α : Type} (xss : List (List α)) : List α := xss.flatten

/-- Modelled from the spec: `Ops.unflatten` (numeric backend, not under
`src/`) — splits a flat list back into groups of the given lengths. -/
def opsUnflatten {α : Type} : List α → List Nat → List (List α)
  | _, [] => []
  | flat, l :: ls => flat.take l :: opsUnflatten (flat.drop l) ls

/-- The flattening loop of `forward` in `src/thinc/layers/foreach.py`
(lines 30–35): for each `doc`, keep the sentences with nonzero length,
extend `sents` with them and append their count to `lengths`. -/
def collectSents {β : Type} : List (List (List β)) → List (List β) × List Nat
  | [] => ([], [])
  | doc :: rest =>
    let doc_sents := doc.filter (fun sent => sent.length != 0)
    let r := collectSents rest
    (doc_sents ++ r.1, doc_sents.length :: r.2)

/-- `forward` of `src/thinc/layers/foreach.py`.  The child layer is a
stateful callable (state type `σ`, mirroring a Python layer's mutable
state): applied to the flat sentence list it returns the flat output, the
flat backward closure `bp_flat`, and its next state.  The `assert
len(sents)` failure is the `none` result, produced before the child is
ever invoked (the state component is returned unchanged in that case). -/
def foreach_forward {β σ Out DOut DIn : Type}
    (child : σ → List (List β) → (List Out × (List DOut → List DIn)) × σ)
    (docs : List (List (List β))) (s : σ) :
    Option (List (List Out) × (List (List DOut) → List (List DIn))) × σ :=
  let sents := (collectSents docs).1
  let lengths := (collectSents docs).2
  if sents.length = 0 then (none, s)
  else
    let c := child s sents
    let flat := c.1.1
    let bp_flat := c.1.2
    let output := opsUnflatten flat lengths
    let foreach_bwd := fun (d_output : List (List DOut)) =>
      opsUnflatten (bp_flat (opsFlatten d_output)) lengths
    (some (output, foreach_bwd), c.2)

/-- `init` of `src/thinc/layers/foreach.py` (line 19): `[X[0]] if X else
None` — Python truthiness maps both a missing and an empty sample to
`None`; otherwise the child receives the singleton list holding the
FIRST ELEMENT of the sample. -/
def flatSample {γ : Type} : Option (List γ) → Option (List γ)
  | none => none
  | some [] => none
  | some (x :: _) => some [x]

/-- The child layer as seen by `init`: its `initialize` is abstracted as
a function of the optional flat samples, returning `ρ` (instantiated with
the child's resolved `(nO, nI)` dims, or with a recorder for analysis). -/
structure ChildInit (γ δ ρ : Type) where
  initFn : Option (List γ) → Option (List δ) → ρ

/-- `init` of `src/thinc/layers/foreach.py` (lines 18–23): build the flat
samples, run the child's `initialize` on them, and copy the child's
resolved dims onto the `ForEach` model (the returned value). -/
def foreach_init {γ δ ρ : Type} (child : ChildInit γ δ ρ)
    (X : Option (List γ)) (Y : Option (List δ)) : ρ :=
  child.initFn (flatSample X) (flatSample Y)

/-- A concrete child layer used to instantiate the combinator theorems:
the identity layer (forward returns its input, backward returns the
incoming gradient) with pass-through state. -/
def childId {σ γ : Type} : σ → List γ → ((List γ × (List γ → List γ)) × σ) :=
  fun s xs => ((xs, fun d => d), s)

/-- A concrete child layer that counts how many times it is invoked. -/
def childCount {γ : Type} : Nat → List γ → ((List γ × (List γ → List γ)) × Nat) :=
  fun s xs => ((xs, fun d => d), s + 1)

/-- Untyped nested values, standing in for Python's dynamically typed
documents/sentences/items in the `init` analysis. -/
inductive Val : Type
  | leaf : Nat → Val
  | node : List Val → Val

/-- A child whose `initialize` records the sample it was given. -/
def recorderChild : ChildInit Val Val (Option (List Val)) :=
  ⟨fun x _ => x⟩

/-- Modelled from the spec: the Sequence Codec's sort order (§4.1,
"sorts by descending length, stable order for ties") on index/sequence
pairs: `a` comes before `b` when `a`'s sequence is at least as long. -/
def descLen {α : Type} (a b : Nat × List α) : Prop := b.2.length ≤ a.2.length

instance {α : Type} : DecidableRel (descLen (α := α)) := fun _ _ => Nat.decLe _ _

instance {α : Type} : IsTotal (Nat × List α) descLen :=
  ⟨fun a b => Nat.le_total b.2.length a.2.length⟩

instance {α : Type} : IsTrans (Nat × List α) descLen :=
  ⟨fun _ _ _ h1 h2 => le_trans h2 h1⟩

/-- Modelled from the spec: the Padded Batch (§3) — `data` is the dense
(max_length × batch_size) buffer of rows (a row is an opaque `α`),
`size_at_t` the per-timestep active counts, `indices` the permutation
recording each sequence's original position. -/
structure Padded (α : Type) : Type where
  data : List (List α)
  size_at_t : List Nat
  indices : List Nat

/-- The sequences paired with their original positions and stably
sorted by descending length (§4.1 "Sorts by descending length (stable
order for ties) … records the permutation needed to invert the sort"). -/
def sortedEnum {α : Type} (seqs : List (List α)) : List (Nat × List α) :=
  (seqs.enum).insertionSort descLen

/-- The padded buffer's time extent: the longest sequence's length. -/
def maxLenOf {α : Type} (seqs : List (List α)) : Nat :=
  (seqs.map List.length).foldr max 0

/-- Modelled from the spec: `ragged_to_padded` / `Ops.list2padded`
(numeric backend, not under `src/`): pair each sequence with its
original position, stably sort by descending length, then build the
time-major buffer (zero-fill abstracted as the `pad` row), the
`size_at_t` schedule (element `t` = count of sequences with length
`> t`) and the inverting permutation. -/
def list2paddedCore {α : Type} (pad : α) (seqs : List (List α)) : Padded α :=
  let batch := (sortedEnum seqs).map Prod.snd
  { data := (List.range (maxLenOf seqs)).map
      (fun t => batch.map (fun seq => seq.getD t pad))
    size_at_t := (List.range (maxLenOf seqs)).map
      (fun t => batch.countP (fun seq => decide (t < seq.length)))
    indices := (sortedEnum seqs).map Prod.fst }

/-- Modelled from the spec: `ragged_to_padded` rejects an empty overall
batch (§4.1 "Failure: empty overall batch (zero sequences) is
rejected"). -/
def list2padded {α : Type} (pad : α) (seqs : List (List α)) : Option (Padded α) :=
  if seqs.isEmpty then none else some (list2paddedCore pad seqs)

/-- Modelled from the spec: `padded_to_ragged` / `Ops.padded2list`
(numeric backend, not under `src/`): recover each sorted sequence's
length from `size_at_t` (length of sorted sequence `i` = count of
timesteps still counting `i` active), slice `data[:length_i, i]`, and
re-apply the inverse permutation to restore original order. -/
def padded2list {α : Type} [Inhabited α] (p : Padded α) : List (List α) :=
  let n := p.indices.length
  let len := fun i => p.size_at_t.countP (fun s => decide (i < s))
  let sortedSeqs := (List.range n).map
    (fun i => (List.range (len i)).map (fun t => (p.data.getD t []).getD i default))
  (List.range n).map (fun j => sortedSeqs.getD (p.indices.indexOf j) [])

/-- Modelled from the spec: the recurrent (LSTM) layer's parameters
after initialization (§4.5) — shapes are a pure function of the
resolved dims; the numeric initializer is abstracted by the fill
functions. -/
structure LSTMParams (α : Type) : Type where
  W : List (List α)
  b : List α
  initial_hiddens : List α
  initial_cells : List α

/-- Modelled from the spec: LSTM parameter allocation from resolved
`(nO, nI)` (§4.5): `W : (4·nO) × (nO+nI)`, `b : 4·nO`, both initial
state vectors of size `nO`. -/
def lstm_alloc {α : Type} (fillW : Nat → Nat → α) (fillVec : Nat → α)
    (nO nI : Nat) : LSTMParams α :=
  { W := (List.range (4 * nO)).map (fun i => (List.range (nO + nI)).map (fillW i))
    b := (List.range (4 * nO)).map fillVec
    initial_hiddens := (List.range nO).map fillVec
    initial_cells := (List.range nO).map fillVec }

/-- The "not implemented" failure of §4.5/§7. -/
inductive LSTMBuildError : Type
  | notImplemented

/-- A constructed recurrent-layer configuration. -/
structure LSTMConfig : Type where
  nO : Option Nat
  nI : Option Nat
  bi : Bool
  dropout : ℚ
  delegated : Bool

/-- Modelled from the spec: recurrent-layer construction (§4.5,
"dropout combined with an externally-delegated recurrent engine signals
a 'not implemented' failure at construction or initialization time
rather than silently ignoring the option"). -/
def lstm_construct (nO nI : Option Nat) (bi : Bool) (dropout : ℚ)
    (delegated : Bool) : Except LSTMBuildError LSTMConfig :=
  if delegated = true ∧ dropout ≠ 0 then Except.error LSTMBuildError.notImplemented
  else Except.ok ⟨nO, nI, bi, dropout, delegated⟩

/-! ## Basic lemmas about the flattening loop and the codec primitives -/

theorem collectSents_fst {β : Type} (docs : List (List (List β))) :
    (collectSents docs).1 =
      (docs.map (fun doc => doc.filter (fun sent => sent.length != 0))).flatten := by
  induction docs with
  | nil => rfl
  | cons doc rest ih => simp [collectSents, ih]

theorem collectSents_snd {β : Type} (docs : List (List (List β))) :
    (collectSents docs).2 =
      docs.map (fun doc => (doc.filter (fun sent => sent.length != 0)).length) := by
  induction docs with
  | nil => rfl
  | cons doc rest ih => simp [collectSents, ih]

theorem collectSents_snd_length {β : Type} (docs : List (List (List β))) :
    (collectSents docs).2.length = docs.length := by
  simp [collectSents_snd]

theorem collectSents_sum {β : Type} (docs : List (List (List β))) :
    (collectSents docs).2.sum = (collectSents docs).1.length := by
  induction docs with
  | nil => rfl
  | cons doc rest ih => simp [collectSents, ih]

theorem opsUnflatten_length {α : Type} (flat : List α) (ls : List Nat) :
    (opsUnflatten flat ls).length = ls.length := by
  induction ls generalizing flat with
  | nil => rfl
  | cons l ls ih => simp [opsUnflatten, ih]

theorem opsUnflatten_map_length {α : Type} (flat : List α) (ls : List Nat)
    (h : ls.sum ≤ flat.length) :
    (opsUnflatten flat ls).map List.length = ls := by
  induction ls generalizing flat with
  | nil => rfl
  | cons l ls ih =>
    simp only [List.sum_cons] at h
    have hl : l ≤ flat.length := le_trans (Nat.le_add_right _ _) h
    have hrest : ls.sum ≤ (flat.drop l).length := by
      simp [List.length_drop]
      omega
    simp [opsUnflatten, List.length_take, ih _ hrest, Nat.min_eq_left hl]

theorem opsFlatten_length {α : Type} (xss : List (List α)) :
    (opsFlatten xss).length = (xss.map List.length).sum := by
  simp [opsFlatten]

theorem collectSents_nil_iff {β : Type} (docs : List (List (List β))) :
    (collectSents docs).1 = [] ↔
      docs.all (fun doc => doc.all (fun sent => sent.length == 0)) = true := by
  induction docs with
  | nil => simp [collectSents]
  | cons doc rest ih =>
    simp only [collectSents, List.all_cons, List.append_eq_nil, Bool.and_eq_true, ih,
      List.filter_eq_nil_iff, List.all_eq_true]
    constructor
    · rintro ⟨h1, h2⟩
      refine ⟨fun sent hs => ?_, h2⟩
      have := h1 sent hs
      simpa using this
    · rintro ⟨h1, h2⟩
      refine ⟨fun sent hs => ?_, h2⟩
      have := h1 sent hs
      simpa using this

theorem foreach_forward_some {β σ Out DOut DIn : Type}
    (child : σ → List (List β) → (List Out × (List DOut → List DIn)) × σ)
    (docs : List (List (List β))) (s : σ)
    (h : (collectSents docs).1 ≠ []) :
    foreach_forward child docs s =
      (some (opsUnflatten (child s (collectSents docs).1).1.1 (collectSents docs).2,
             fun d_output =>
               opsUnflatten ((child s (collectSents docs).1).1.2 (opsFlatten d_output))
                 (collectSents docs).2),
       (child s (collectSents docs).1).2) := by
  have hlen : ¬(collectSents docs).1.length = 0 := by
    simpa [List.length_eq_zero] using h
  simp [foreach_forward, hlen]

/-- Shared shape analysis for the combinator's forward output and
backward gradient, under the child layer contract (the flat output and
the flat gradient each have one item per flat input sentence). -/
theorem foreach_forward_shapes_aux {β σ Out DOut DIn : Type}
    (child : σ → List (List β) → (List Out × (List DOut → List DIn)) × σ)
    (docs : List (List (List β))) (s : σ)
    (hne : (collectSents docs).1 ≠ [])
    (hfwd : ((child s (collectSents docs).1).1.1).length = (collectSents docs).1.length)
    (hbp : ∀ d, ((child s (collectSents docs).1).1.2 d).length = d.length) :
    ∃ out bwd, (foreach_forward child docs s).1 = some (out, bwd) ∧
      out.length = docs.length ∧
      out.map List.length =
        docs.map (fun doc => (doc.filter (fun sent => sent.length != 0)).length) ∧
      ∀ g : List (List DOut),
        g.map List.length =
          docs.map (fun doc => (doc.filter (fun sent => sent.length != 0)).length) →
        (bwd g).length = docs.length ∧
        (bwd g).map List.length =
          docs.map (fun doc => (doc.filter (fun sent => sent.length != 0)).length) := by
  have hsum : (collectSents docs).2.sum = (collectSents docs).1.length :=
    collectSents_sum docs
  refine ⟨_, _, by rw [foreach_forward_some child docs s hne], ?_, ?_, ?_⟩
  · rw [opsUnflatten_length, collectSents_snd_length]
  · rw [opsUnflatten_map_length _ _ (by rw [hfwd]; exact le_of_eq hsum),
      collectSents_snd]
  · intro g hg
    have hflat : (opsFlatten g).length = (collectSents docs).1.length := by
      rw [opsFlatten_length, hg, ← collectSents_snd, hsum]
    constructor
    · rw [opsUnflatten_length, collectSents_snd_length]
    · rw [opsUnflatten_map_length _ _ (by rw [hbp, hflat]; exact le_of_eq hsum),
        collectSents_snd]

/-- **C3**: `ForEach.forward` drops length-0 inner sequences from each
group, concatenates the rest into one flat list, records the per-group
retained counts as `lengths`, invokes the child exactly once on the flat
list (the resulting child state is that of a single invocation from `s`),
and unflattens the child's flat output by `lengths`. -/
theorem claim_C3_forward_flattening {β σ Out DOut DIn : Type}
    (child : σ → List (List β) → (List Out × (List DOut → List DIn)) × σ)
    (docs : List (List (List β))) (s : σ)
    (h : (collectSents docs).1 ≠ []) :
    (collectSents docs).1 =
      (docs.map (fun doc => doc.filter (fun sent => sent.length != 0))).flatten ∧
    (collectSents docs).2 =
      docs.map (fun doc => (doc.filter (fun sent => sent.length != 0)).length) ∧
    ∃ bwd,
      foreach_forward child docs s =
        (some (opsUnflatten (child s (collectSents docs).1).1.1 (collectSents docs).2,
               bwd),
         (child s (collectSents docs).1).2) :=
  ⟨collectSents_fst docs, collectSents_snd docs, _, foreach_forward_some child docs s h⟩

/-- Witness for C3 at a concrete nested batch (one empty inner sequence
is dropped; the identity child is invoked once on the flat list). -/
theorem claim_C3_witness :
    ∃ bwd,
      foreach_forward childId ([[[1], [2], []], [[3]]] : List (List (List Nat))) 0 =
        (some (opsUnflatten [[1], [2], [3]] [2, 1], bwd), 0) := by
  have h := claim_C3_forward_flattening (childId (σ := Nat))
    ([[[1], [2], []], [[3]]] : List (List (List Nat))) 0 (by decide)
  exact h.2.2

/-- **C4**: the forward pass fails (assertion) exactly when the flattened
list is empty — i.e. every inner sequence of every group has length 0, or
there are no groups — and in that case the child layer was never invoked
(its state is untouched); it never silently returns `none` otherwise. -/
theorem claim_C4_empty_assertion {β σ Out DOut DIn : Type}
    (child : σ → List (List β) → (List Out × (List DOut → List DIn)) × σ)
    (docs : List (List (List β))) (s : σ) :
    ((foreach_forward child docs s).1 = none ↔ (collectSents docs).1 = []) ∧
    ((collectSents docs).1 = [] ↔
      docs.all (fun doc => doc.all (fun sent => sent.length == 0)) = true) ∧
    ((collectSents docs).1 = [] → (foreach_forward child docs s).2 = s) := by
  by_cases h : (collectSents docs).1 = []
  · have hlen : (collectSents docs).1.length = 0 := by simp [h]
    refine ⟨?_, collectSents_nil_iff docs, fun _ => ?_⟩ <;>
      simp [foreach_forward, hlen, h]
  · refine ⟨?_, collectSents_nil_iff docs, fun hc => absurd hc h⟩
    rw [foreach_forward_some child docs s h]
    simp [h]

/-- Witness for C4: on an all-empty nested batch the counting child is
never called and the result is the assertion failure. -/
theorem claim_C4_witness :
    (foreach_forward childCount ([[[], []], []] : List (List (List Nat))) 0).1 = none ∧
    (foreach_forward childCount ([[[], []], []] : List (List (List Nat))) 0).2 = 0 := by
  have h := claim_C4_empty_assertion (childCount (γ := List Nat))
    ([[[], []], []] : List (List (List Nat))) 0
  exact ⟨h.1.mpr (by decide), h.2.2 (by decide)⟩

/-- **C10**: whenever the forward pass succeeds, both the output and the
backward gradient have one outer group per input group (empty groups
included), group `i` having exactly the number of non-empty inner
sequences of input group `i`, because backward reuses the recorded
`lengths`. -/
theorem claim_C10_group_structure {β σ Out DOut DIn : Type}
    (child : σ → List (List β) → (List Out × (List DOut → List DIn)) × σ)
    (docs : List (List (List β))) (s : σ)
    (hne : (collectSents docs).1 ≠ [])
    (hfwd : ((child s (collectSents docs).1).1.1).length = (collectSents docs).1.length)
    (hbp : ∀ d, ((child s (collectSents docs).1).1.2 d).length = d.length) :
    ∃ out bwd, (foreach_forward child docs s).1 = some (out, bwd) ∧
      out.length = docs.length ∧
      out.map List.length =
        docs.map (fun doc => (doc.filter (fun sent => sent.length != 0)).length) ∧
      ∀ g : List (List DOut),
        g.map List.length =
          docs.map (fun doc => (doc.filter (fun sent => sent.length != 0)).length) →
        (bwd g).length = docs.length ∧
        (bwd g).map List.length =
          docs.map (fun doc => (doc.filter (fun sent => sent.length != 0)).length) :=
  foreach_forward_shapes_aux child docs s hne hfwd hbp

/-- Witness for C10 at group sizes [1, 0, 2] with the identity child:
output group sizes are [1, 0, 2] and so are the backward gradient's. -/
theorem claim_C10_witness :
    ((foreach_forward childId ([[[1]], [], [[2], [3]]] : List (List (List Nat))) 0).1.map
        (fun r => r.1.map List.length)) = some [1, 0, 2] ∧
    ((foreach_forward childId ([[[1]], [], [[2], [3]]] : List (List (List Nat))) 0).1.map
        (fun r => (r.2 [[[10]], [], [[20], [30]]]).map List.length)) = some [1, 0, 2] := by
  obtain ⟨out, bwd, h1, _h2, h3, h4⟩ := claim_C10_group_structure
    (childId (σ := Nat)) ([[[1]], [], [[2], [3]]] : List (List (List Nat))) 0
    (by decide) rfl (fun d => rfl)
  have h5 := h4 [[[10]], [], [[20], [30]]] (by decide)
  rw [h1]
  exact ⟨congrArg some h3, congrArg some h5.2⟩

/-- C2 counterexample: the nested batch `[[ [1], [] ]]` (one group with
one non-empty and one empty inner sequence) is accepted by the forward
pass, yet the output's group sizes are `[1]` while the input's group
sizes are `[2]` — the empty inner sequence was dropped, so the output
nesting does NOT have the same group sizes as the input. -/
theorem claim_C2_counterexample :
    ((foreach_forward childId ([[[1], []]] : List (List (List Nat))) 0).1.map
        (fun r => r.1.map List.length)) = some [1] ∧
    ([[[1], []]] : List (List (List Nat))).map List.length = [2] :=
  ⟨rfl, rfl⟩

/-- **C2 (amended)**: for nested input accepted by the forward pass in
which every inner sequence is non-empty, the output nesting has the same
group sizes as the input, and the backward closure applied to a gradient
of the output's nested shape yields a gradient of the same nested shape
as the original input (it flattens with the same policy and unflattens
with the recorded `lengths`). -/
theorem claim_C2_shape_symmetry {β σ Out DOut DIn : Type}
    (child : σ → List (List β) → (List Out × (List DOut → List DIn)) × σ)
    (docs : List (List (List β))) (s : σ)
    (hall : ∀ doc ∈ docs, ∀ sent ∈ doc, sent.length ≠ 0)
    (hne : (collectSents docs).1 ≠ [])
    (hfwd : ((child s (collectSents docs).1).1.1).length = (collectSents docs).1.length)
    (hbp : ∀ d, ((child s (collectSents docs).1).1.2 d).length = d.length) :
    ∃ out bwd, (foreach_forward child docs s).1 = some (out, bwd) ∧
      out.map List.length = docs.map List.length ∧
      ∀ g : List (List DOut),
        g.map List.length = docs.map List.length →
        (bwd g).map List.length = docs.map List.length := by
  have hfilter :
      docs.map (fun doc => (doc.filter (fun sent => sent.length != 0)).length) =
        docs.map List.length := by
    apply List.map_congr_left
    intro doc hdoc
    congr 1
    apply List.filter_eq_self.mpr
    intro sent hsent
    simpa using hall doc hdoc sent hsent
  obtain ⟨out, bwd, h1, _h2, h3, h4⟩ :=
    foreach_forward_shapes_aux child docs s hne hfwd hbp
  refine ⟨out, bwd, h1, by rw [h3, hfilter], fun g hg => ?_⟩
  have := h4 g (by rw [hg, hfilter])
  rw [this.2, hfilter]

/-- Witness for the amended C2 at group sizes [3, 0, 2] (all inner
sequences non-empty): output and backward-gradient group sizes both
equal the input's. -/
theorem claim_C2_witness :
    ((foreach_forward childId
        ([[[1], [2], [3]], [], [[4], [5]]] : List (List (List Nat))) 0).1.map
          (fun r => r.1.map List.length)) = some [3, 0, 2] ∧
    ((foreach_forward childId
        ([[[1], [2], [3]], [], [[4], [5]]] : List (List (List Nat))) 0).1.map
          (fun r => (r.2 [[[10], [11], [12]], [], [[13], [14]]]).map List.length))
      = some [3, 0, 2] := by
  obtain ⟨out, bwd, h1, h2, h3⟩ := claim_C2_shape_symmetry
    (childId (σ := Nat)) ([[[1], [2], [3]], [], [[4], [5]]] : List (List (List Nat))) 0
    (by decide) (by decide) rfl (fun d => rfl)
  have h5 := h3 [[[10], [11], [12]], [], [[13], [14]]] (by decide)
  rw [h1]
  exact ⟨congrArg some h2, congrArg some h5⟩

/-- C9 counterexample: on the sample `X = [node [leaf 1, leaf 2],
node [leaf 3]]` (two sub-sequences), the child's `initialize` receives
the singleton list holding the WHOLE first sub-sequence
`node [leaf 1, leaf 2]` — not its first element `leaf 1` as the claim
states. -/
theorem claim_C9_counterexample :
    foreach_init recorderChild
        (some [Val.node [Val.leaf 1, Val.leaf 2], Val.node [Val.leaf 3]]) none =
      some [Val.node [Val.leaf 1, Val.leaf 2]] ∧
    (some [Val.node [Val.leaf 1, Val.leaf 2]] : Option (List Val)) ≠
      some [Val.leaf 1] := by
  refine ⟨rfl, fun h => ?_⟩
  simp at h

/-- **C9 (amended)**: `ForEach`'s `init`, given a non-empty sample, runs
the child's `initialize` on the singleton list holding the sample's
first element (the first sub-sequence itself, not that sub-sequence's
first element); a missing or empty sample is passed through as `none`.
The value the child's `initialize` resolves (its `nO`/`nI` dims, when
`ρ` is instantiated with the dim pair) becomes the `ForEach` model's
own. -/
theorem claim_C9_init_representative {γ δ ρ : Type} (child : ChildInit γ δ ρ)
    (x : γ) (xs : List γ) (Y : Option (List δ)) :
    foreach_init child (some (x :: xs)) Y = child.initFn (some [x]) (flatSample Y) ∧
    foreach_init child none Y = child.initFn none (flatSample Y) ∧
    foreach_init child (some []) Y = child.initFn none (flatSample Y) :=
  ⟨rfl, rfl, rfl⟩

/-- **C7**: for every recurrent layer with resolved dims `(nO, nI)`,
after initialization `W` has shape `(4·nO, nO+nI)` (row count `4·nO`,
every row of width `nO+nI`), `b` has shape `(4·nO,)`, and the initial
hidden- and cell-state vectors each have shape `(nO,)`. -/
theorem claim_C7_param_shapes {α : Type} (fillW : Nat → Nat → α)
    (fillVec : Nat → α) (nO nI : Nat) :
    (lstm_alloc fillW fillVec nO nI).W.length = 4 * nO ∧
    (lstm_alloc fillW fillVec nO nI).W.map List.length =
      List.replicate (4 * nO) (nO + nI) ∧
    (lstm_alloc fillW fillVec nO nI).b.length = 4 * nO ∧
    (lstm_alloc fillW fillVec nO nI).initial_hiddens.length = nO ∧
    (lstm_alloc fillW fillVec nO nI).initial_cells.length = nO := by
  refine ⟨by simp [lstm_alloc], ?_, by simp [lstm_alloc], by simp [lstm_alloc],
    by simp [lstm_alloc]⟩
  simp only [lstm_alloc, List.map_map]
  rw [show ((fun l : List α => l.length) ∘ fun i => (List.range (nO + nI)).map (fillW i))
      = fun _ => nO + nI by funext i; simp]
  simp [List.map_const']

/-- **C8**: constructing a recurrent layer with dropout enabled under
the delegated-engine configuration yields the "not implemented" error —
it never returns a constructed configuration, so no forward pass can be
attempted and the option is never silently ignored. -/
theorem claim_C8_dropout_delegated (nO nI : Option Nat) (bi : Bool)
    (dropout : ℚ) (h : dropout ≠ 0) :
    lstm_construct nO nI bi dropout true =
      Except.error LSTMBuildError.notImplemented ∧
    ∀ cfg, lstm_construct nO nI bi dropout true ≠ Except.ok cfg := by
  constructor
  · simp [lstm_construct, h]
  · intro cfg hc
    simp [lstm_construct, h] at hc

/-! ## Sequence Codec lemmas -/

theorem le_foldr_max {l : List Nat} {x : Nat} (hx : x ∈ l) : x ≤ l.foldr max 0 := by
  induction l with
  | nil => cases hx
  | cons a l ih =>
    rcases List.mem_cons.mp hx with rfl | h
    · exact le_max_left _ _
    · exact le_trans (ih h) (le_max_right _ _)

theorem countP_range_lt (k m : Nat) :
    (List.range m).countP (fun t => decide (t < k)) = min k m := by
  induction m with
  | zero => simp
  | succ m ih =>
    rw [List.range_succ, List.countP_append, ih]
    by_cases h : m < k
    · rw [List.countP_cons, List.countP_nil, if_pos (by simpa using h)]
      omega
    · rw [List.countP_cons, List.countP_nil, if_neg (by simpa using h)]
      omega

theorem sum_map_add (l : List Nat) (f g : Nat → Nat) :
    (l.map (fun x => f x + g x)).sum = (l.map f).sum + (l.map g).sum := by
  induction l with
  | nil => rfl
  | cons a l ih =>
    simp only [List.map_cons, List.sum_cons, ih]
    omega

theorem sum_map_ite (l : List Nat) (p : Nat → Bool) :
    (l.map (fun t => if p t then 1 else 0)).sum = l.countP p := by
  induction l with
  | nil => rfl
  | cons a l ih =>
    rw [List.map_cons, List.sum_cons, ih, List.countP_cons]
    exact Nat.add_comm _ _

theorem sum_counts (L : List Nat) (m : Nat) (h : ∀ l ∈ L, l ≤ m) :
    ((List.range m).map (fun t => L.countP (fun l => decide (t < l)))).sum = L.sum := by
  induction L with
  | nil => simp
  | cons a L ih =>
    have ha : a ≤ m := h a (List.mem_cons_self a L)
    have hL : ∀ l ∈ L, l ≤ m := fun l hl => h l (List.mem_cons_of_mem a hl)
    have hmap : ((List.range m).map (fun t => (a :: L).countP (fun l => decide (t < l)))) =
        (List.range m).map (fun t =>
          L.countP (fun l => decide (t < l)) + (if decide (t < a) then 1 else 0)) := by
      apply List.map_congr_left
      intro t _
      rw [List.countP_cons]
    rw [hmap, sum_map_add, ih hL, sum_map_ite, countP_range_lt, List.sum_cons,
      Nat.min_eq_left ha]
    exact Nat.add_comm _ _

theorem conjugate_count {L : List Nat} (hs : List.Sorted (fun a b => b ≤ a) L)
    {i : Nat} (hi : i < L.length) (t : Nat) :
    i < L.countP (fun l => decide (t < l)) ↔ t < L.get ⟨i, hi⟩ := by
  induction L generalizing i with
  | nil => cases hi
  | cons a L ih =>
    rw [List.sorted_cons] at hs
    obtain ⟨ha, hL⟩ := hs
    rw [List.countP_cons]
    by_cases hta : t < a
    · cases i with
      | zero =>
        rw [if_pos (by simpa using hta)]
        constructor
        · intro _
          exact hta
        · intro _
          omega
      | succ i =>
        have hi' : i < L.length := by
          simpa using hi
        have hget : (a :: L).get ⟨i + 1, hi⟩ = L.get ⟨i, hi'⟩ := rfl
        rw [hget, ← ih hL hi', if_pos (by simpa using hta)]
        omega
    · have hz : L.countP (fun l => decide (t < l)) = 0 := by
        apply List.countP_eq_zero.mpr
        intro l hl
        have := ha l hl
        simp only [decide_eq_true_eq]
        omega
      have hget : (a :: L).get ⟨i, hi⟩ ≤ a := by
        cases i with
        | zero => exact le_refl a
        | succ i =>
          have hi' : i < L.length := by simpa using hi
          exact ha _ (List.get_mem L i hi')
      rw [hz, if_neg (by simpa using hta)]
      constructor
      · intro hcon
        omega
      · intro hcon
        omega

theorem getD_map_range {β : Type} (f : Nat → β) {m i : Nat} (h : i < m) (d : β) :
    ((List.range m).map f).getD i d = f i := by
  rw [List.getD_eq_getElem?_getD, List.getElem?_map, List.getElem?_range h]
  rfl

theorem getD_map_lt {β γ : Type} (f : β → γ) {l : List β} {i : Nat}
    (h : i < l.length) (d : γ) :
    (l.map f).getD i d = f (l.get ⟨i, h⟩) := by
  rw [List.getD_eq_getElem?_getD, List.getElem?_map, List.getElem?_eq_getElem h]
  rfl

theorem getD_lt {β : Type} {l : List β} {i : Nat} (h : i < l.length) (d : β) :
    l.getD i d = l.get ⟨i, h⟩ := by
  rw [List.getD_eq_getElem?_getD, List.getElem?_eq_getElem h]
  rfl

theorem sortedEnum_perm {α : Type} (seqs : List (List α)) :
    (sortedEnum seqs).Perm seqs.enum :=
  List.perm_insertionSort _ _

theorem sortedEnum_length {α : Type} (seqs : List (List α)) :
    (sortedEnum seqs).length = seqs.length := by
  rw [(sortedEnum_perm seqs).length_eq, List.enum_length]

theorem sortedEnum_mem {α : Type} (seqs : List (List α)) {p : Nat × List α}
    (hp : p ∈ sortedEnum seqs) : seqs[p.1]? = some p.2 :=
  List.mem_enum_iff_getElem?.mp ((sortedEnum_perm seqs).mem_iff.mp hp)

theorem indices_perm {α : Type} (seqs : List (List α)) :
    ((sortedEnum seqs).map Prod.fst).Perm (List.range seqs.length) := by
  have h := (sortedEnum_perm seqs).map Prod.fst
  rwa [List.enum_map_fst] at h

theorem sortedLens_sorted {α : Type} (seqs : List (List α)) :
    List.Sorted (fun a b => b ≤ a) ((sortedEnum seqs).map (fun p => p.2.length)) :=
  List.Pairwise.map _ (fun _ _ h => h) (List.sorted_insertionSort descLen _)

theorem sortedLens_le_maxLen {α : Type} (seqs : List (List α)) {x : Nat}
    (hx : x ∈ (sortedEnum seqs).map (fun p => p.2.length)) : x ≤ maxLenOf seqs := by
  obtain ⟨p, hp, rfl⟩ := List.mem_map.mp hx
  have hmem : p.2 ∈ seqs := List.getElem?_mem (sortedEnum_mem seqs hp)
  exact le_foldr_max (List.mem_map.mpr ⟨p.2, hmem, rfl⟩)

theorem sortedLens_perm {α : Type} (seqs : List (List α)) :
    ((sortedEnum seqs).map (fun p => p.2.length)).Perm (seqs.map List.length) := by
  have h := (sortedEnum_perm seqs).map (fun p : Nat × List α => p.2.length)
  have h2 : (seqs.enum.map fun p : Nat × List α => p.2.length) = seqs.map List.length := by
    rw [show (fun p : Nat × List α => p.2.length) = List.length ∘ Prod.snd from rfl,
      ← List.map_map, List.enum_map_snd]
  rwa [h2] at h

theorem countP_batch_eq {α : Type} (seqs : List (List α)) (t : Nat) :
    ((sortedEnum seqs).map Prod.snd).countP (fun seq => decide (t < seq.length)) =
      ((sortedEnum seqs).map (fun p => p.2.length)).countP (fun l => decide (t < l)) := by
  rw [List.countP_map, List.countP_map]
  rfl

theorem size_at_t_def {α : Type} (pad : α) (seqs : List (List α)) :
    (list2paddedCore pad seqs).size_at_t = (List.range (maxLenOf seqs)).map
      (fun t => ((sortedEnum seqs).map (fun p => p.2.length)).countP
        (fun l => decide (t < l))) := by
  show (List.range (maxLenOf seqs)).map
      (fun t => ((sortedEnum seqs).map Prod.snd).countP
        (fun seq => decide (t < seq.length))) = _
  apply List.map_congr_left
  intro t _
  exact countP_batch_eq seqs t

theorem recovered_len {α : Type} (pad : α) (seqs : List (List α)) {i : Nat}
    (hi : i < seqs.length) :
    (list2paddedCore pad seqs).size_at_t.countP (fun s => decide (i < s)) =
      ((sortedEnum seqs).map (fun p => p.2.length)).get
        ⟨i, by rw [List.length_map, sortedEnum_length]; exact hi⟩ := by
  have hiL : i < ((sortedEnum seqs).map (fun p => p.2.length)).length := by
    rw [List.length_map, sortedEnum_length]
    exact hi
  rw [size_at_t_def, List.countP_map]
  have hcong : ∀ t ∈ List.range (maxLenOf seqs),
      (((fun s => decide (i < s)) ∘
        (fun t => ((sortedEnum seqs).map (fun p => p.2.length)).countP
          (fun l => decide (t < l)))) t = true) ↔
      ((fun t => decide
        (t < ((sortedEnum seqs).map (fun p => p.2.length)).get ⟨i, hiL⟩)) t = true) := by
    intro t _
    simp only [Function.comp_apply, decide_eq_true_eq]
    exact conjugate_count (sortedLens_sorted seqs) hiL t
  rw [List.countP_congr hcong, countP_range_lt]
  exact Nat.min_eq_left (sortedLens_le_maxLen seqs (List.get_mem _ _ hiL))

theorem data_entry {α : Type} [Inhabited α] (pad : α) (seqs : List (List α))
    {t i : Nat} (ht : t < maxLenOf seqs)
    (hiB : i < ((sortedEnum seqs).map Prod.snd).length) :
    ((list2paddedCore pad seqs).data.getD t []).getD i default =
      (((sortedEnum seqs).map Prod.snd).get ⟨i, hiB⟩).getD t pad := by
  show (((List.range (maxLenOf seqs)).map
      (fun t => ((sortedEnum seqs).map Prod.snd).map
        (fun seq => seq.getD t pad))).getD t []).getD i default = _
  rw [getD_map_range _ ht, getD_map_lt _ hiB]

theorem padded2list_get {α : Type} [Inhabited α] (p : Padded α) {j : Nat}
    (hjl : j < (padded2list p).length) :
    (padded2list p).get ⟨j, hjl⟩ =
      ((List.range p.indices.length).map
        (fun i => (List.range (p.size_at_t.countP (fun s => decide (i < s)))).map
          (fun t => (p.data.getD t []).getD i default))).getD (p.indices.indexOf j) [] := by
  show ((List.range p.indices.length).map _).get ⟨j, _⟩ = _
  rw [List.get_eq_getElem, List.getElem_map, List.getElem_range]

theorem padded2list_length {α : Type} [Inhabited α] (p : Padded α) :
    (padded2list p).length = p.indices.length := by
  show ((List.range p.indices.length).map _).length = _
  rw [List.length_map, List.length_range]

/-- The full codec round trip on the total core: unpadding a padded
batch restores every sequence, in shape, values, and original order. -/
theorem list2paddedCore_roundtrip {α : Type} [Inhabited α] (pad : α)
    (seqs : List (List α)) :
    padded2list (list2paddedCore pad seqs) = seqs := by
  have hn : (list2paddedCore pad seqs).indices.length = seqs.length := by
    show ((sortedEnum seqs).map Prod.fst).length = seqs.length
    rw [List.length_map, sortedEnum_length]
  apply List.ext_get
  · rw [padded2list_length, hn]
  intro j h1 h2
  rw [padded2list_get]
  -- locate j inside the recorded permutation
  have hjmem : j ∈ (list2paddedCore pad seqs).indices := by
    have hjr : j ∈ List.range seqs.length := List.mem_range.mpr h2
    exact (indices_perm seqs).mem_iff.mpr hjr
  have hidx : (list2paddedCore pad seqs).indices.indexOf j <
      (list2paddedCore pad seqs).indices.length :=
    List.indexOf_lt_length.mpr hjmem
  set idx := (list2paddedCore pad seqs).indices.indexOf j with hidxdef
  have hat : (list2paddedCore pad seqs).indices.get ⟨idx, hidx⟩ = j :=
    List.indexOf_get hidx
  have hidxn : idx < seqs.length := by rw [← hn]; exact hidx
  have hidxS : idx < (sortedEnum seqs).length := by
    rw [sortedEnum_length]
    exact hidxn
  -- the sorted entry at position idx is (j, seqs[j])
  have hfst : ((sortedEnum seqs).get ⟨idx, hidxS⟩).1 = j := by
    have : (list2paddedCore pad seqs).indices.get ⟨idx, hidx⟩ =
        ((sortedEnum seqs).get ⟨idx, hidxS⟩).1 := by
      show ((sortedEnum seqs).map Prod.fst).get ⟨idx, hidx⟩ = _
      rw [List.get_eq_getElem, List.getElem_map]
      rfl
    rw [← this, hat]
  have hsnd : seqs[j]? = some ((sortedEnum seqs).get ⟨idx, hidxS⟩).2 := by
    have hmem := List.get_mem (sortedEnum seqs) idx hidxS
    have := sortedEnum_mem seqs hmem
    rwa [hfst] at this
  have hjlen : j < seqs.length := h2
  have hseq : seqs.get ⟨j, hjlen⟩ = ((sortedEnum seqs).get ⟨idx, hidxS⟩).2 := by
    have := List.getElem?_eq_getElem hjlen
    rw [this] at hsnd
    exact Option.some.inj hsnd
  -- reduce the outer getD to the idx-th reconstructed sequence
  have houter :
      ((List.range (list2paddedCore pad seqs).indices.length).map
        (fun i => (List.range
            ((list2paddedCore pad seqs).size_at_t.countP (fun s => decide (i < s)))).map
          (fun t => ((list2paddedCore pad seqs).data.getD t []).getD i default))).getD
        idx [] =
      (List.range
          ((list2paddedCore pad seqs).size_at_t.countP (fun s => decide (idx < s)))).map
        (fun t => ((list2paddedCore pad seqs).data.getD t []).getD idx default) := by
    rw [hn]
    exact getD_map_range _ hidxn []
  rw [houter]
  -- the recovered length is the sorted sequence's length
  have hiL : idx < ((sortedEnum seqs).map (fun p => p.2.length)).length := by
    rw [List.length_map]
    exact hidxS
  have hlen2 : ((sortedEnum seqs).map (fun p => p.2.length)).get ⟨idx, hiL⟩ =
      ((sortedEnum seqs).get ⟨idx, hidxS⟩).2.length := by
    rw [List.get_eq_getElem, List.getElem_map]
    rfl
  have hrec : (list2paddedCore pad seqs).size_at_t.countP (fun s => decide (idx < s)) =
      ((sortedEnum seqs).get ⟨idx, hidxS⟩).2.length := by
    rw [recovered_len pad seqs hidxn, hlen2]
  rw [hrec, hseq]
  -- pointwise equality of the reconstructed sequence
  set s := ((sortedEnum seqs).get ⟨idx, hidxS⟩).2 with hsdef
  have hsmax : s.length ≤ maxLenOf seqs := by
    apply sortedLens_le_maxLen seqs
    apply List.mem_map.mpr
    exact ⟨(sortedEnum seqs).get ⟨idx, hidxS⟩, List.get_mem _ _ _, rfl⟩
  have hiB : idx < ((sortedEnum seqs).map Prod.snd).length := by
    rw [List.length_map]
    exact hidxS
  have hbatch : ((sortedEnum seqs).map Prod.snd).get ⟨idx, hiB⟩ = s := by
    rw [List.get_eq_getElem, List.getElem_map]
    rfl
  apply List.ext_get
  · rw [List.length_map, List.length_range]
  intro t ht1 ht2
  have htr : t < s.length := by
    rw [List.length_map, List.length_range] at ht1
    exact ht1
  have htm : t < maxLenOf seqs := lt_of_lt_of_le htr hsmax
  rw [List.get_eq_getElem, List.getElem_map, List.getElem_range,
    data_entry pad seqs htm hiB, hbatch, getD_lt htr]

/-- **C1**: for every ragged batch of sequences (individual lengths may
be 0; the codec rejects only the zero-sequence batch), unpadding the
padded batch reproduces each sequence's array exactly — shape and
values — and in the batch's original order. -/
theorem claim_C1_roundtrip {α : Type} [Inhabited α] (pad : α)
    (seqs : List (List α)) (h : seqs ≠ []) :
    ∃ p, list2padded pad seqs = some p ∧ padded2list p = seqs := by
  refine ⟨list2paddedCore pad seqs, ?_, list2paddedCore_roundtrip pad seqs⟩
  rw [list2padded, if_neg]
  simpa using h

/-- Witness for C1 on a concrete batch with a length-0 sequence in the
middle: the round trip restores it (and the original order). -/
theorem claim_C1_witness :
    (([[1, 2], [], [3]] : List (List Nat)) ≠ []) ∧
    ∃ p, list2padded 0 ([[1, 2], [], [3]] : List (List Nat)) = some p ∧
      padded2list p = [[1, 2], [], [3]] :=
  ⟨by decide, claim_C1_roundtrip 0 [[1, 2], [], [3]] (by decide)⟩

/-- **C5**: for every ragged batch, the produced `size_at_t` schedule is
monotonically non-increasing and its sum equals the sum of the input
sequence lengths. -/
theorem claim_C5_size_at_t {α : Type} (pad : α) (seqs : List (List α)) :
    List.Sorted (fun a b => b ≤ a) (list2paddedCore pad seqs).size_at_t ∧
    (list2paddedCore pad seqs).size_at_t.sum = (seqs.map List.length).sum := by
  constructor
  · rw [size_at_t_def]
    apply List.Pairwise.map _ _ (List.pairwise_lt_range (maxLenOf seqs))
    intro a b hab
    apply List.countP_mono_left
    intro x _ hx
    simp only [decide_eq_true_eq] at hx ⊢
    omega
  · rw [size_at_t_def,
      sum_counts _ _ (fun l hl => sortedLens_le_maxLen seqs hl)]
    exact (sortedLens_perm seqs).sum_eq

/-- **C6**: `list2padded` on sequences of lengths [5, 8, 2] with feature
dimension 4 produces a buffer of shape (8, 3, 4) and `size_at_t =
[3, 3, 2, 2, 2, 1, 1, 1]`, and `padded2list` of that result returns
arrays of shapes (5, 4), (8, 4), (2, 4) in that order. -/
theorem claim_C6_concrete :
    ∃ p, list2padded (List.replicate 4 (0 : Nat))
        [List.replicate 5 (List.replicate 4 0), List.replicate 8 (List.replicate 4 0),
         List.replicate 2 (List.replicate 4 0)] = some p ∧
      p.data.length = 8 ∧
      p.data.map List.length = List.replicate 8 3 ∧
      p.data.map (fun row => row.map List.length) =
        List.replicate 8 (List.replicate 3 4) ∧
      p.size_at_t = [3, 3, 2, 2, 2, 1, 1, 1] ∧
      (padded2list p).map List.length = [5, 8, 2] ∧
      (padded2list p).map (fun s => s.map List.length) =
        [List.replicate 5 4, List.replicate 8 4, List.replicate 2 4] := by
  refine ⟨_, rfl, ?_, ?_, ?_, ?_, ?_, ?_⟩ <;> decide

/-- Witness for C8 at dropout 0.2 (the repository test's value). -/
theorem claim_C8_witness :
    ((1 : ℚ) / 5 ≠ 0) ∧
    lstm_construct none none false ((1 : ℚ) / 5) true =
      Except.error LSTMBuildError.notImplemented :=
  ⟨by norm_num, (claim_C8_dropout_delegated none none false _ (by norm_num)).1⟩

end Thinc
